/-
Verification of the AI_Handwritten_Compiler repository's core algorithms:
the metrics engine and fitness scorer of `performance_metric.py`, and the
image-preprocessing error channel and PSO text refiner of `ocr.py`.

Python strings are modelled by Lean `String`, Python lists by Lean `List`,
Python `float` arithmetic by exact rational arithmetic over `ℚ`, and the
refiner's pseudo-random draws by an explicit stream of Booleans (draw `k`
is `true` exactly when the `k`-th call `random.random() < 0.3` succeeds).
-/
import Mathlib

set_option autoImplicit false

/-! ### Tokenization: Python `str.split()` (no separator argument) -/

/-- Helper for `pySplit`: walks the character list, accumulating the current
(reversed) non-whitespace run in `acc` and emitting a word at each maximal
run boundary. -/
def pySplitCore : List Char → List Char → List String
  | [], acc => if acc.isEmpty then [] else [String.mk acc.reverse]
  | c :: cs, acc =>
    if c.isWhitespace then
      (if acc.isEmpty then [] else [String.mk acc.reverse]) ++ pySplitCore cs []
    else
      pySplitCore cs (c :: acc)

/-- Python `s.split()` with no separator: the maximal runs of non-whitespace
characters of `s`, in order; empty runs are never produced. -/
def pySplit (s : String) : List String := pySplitCore s.data []

/-! ### Metrics engine: `calculate_metrics` in `performance_metric.py` -/

/-- Python `sum([w1 != w2 for w1, w2 in zip(xs, ys)])`: the number of positions of
the overlapping prefix where the two sequences differ. -/
def countNe {α : Type} [DecidableEq α] (xs ys : List α) : Nat :=
  ((xs.zip ys).filter fun p => decide (p.1 ≠ p.2)).length

/-- Python `sum([w1 == w2 for w1, w2 in zip(xs, ys)])`: the number of positions of
the overlapping prefix where the two sequences agree. -/
def countEq {α : Type} [DecidableEq α] (xs ys : List α) : Nat :=
  ((xs.zip ys).filter fun p => decide (p.1 = p.2)).length

/-- The quintuple returned by `calculate_metrics`. -/
structure MetricsReport where
  wer : ℚ
  cer : ℚ
  precision : ℚ
  «recall» : ℚ
  f1_score : ℚ
deriving DecidableEq

/-- The function `calculate_metrics(true_text, predicted_text)` from
`performance_metric.py` (lines 52–75), translated clause by clause:
word-level positional substitutions over `zip`, the *signed* differences
`deletions = len(true_words) - len(predicted_words)` and
`insertions = len(predicted_words) - len(true_words)` (the source applies no
`max(0, ·)`), character-level substitutions over the whitespace-stripped
concatenations, and precision/recall/F1 with `0` default on zero
denominators. -/
def calculate_metrics (true_text predicted_text : String) : MetricsReport :=
  let true_words := pySplit true_text
  let predicted_words := pySplit predicted_text
  let substitutions : ℤ := countNe true_words predicted_words
  let deletions : ℤ := (true_words.length : ℤ) - (predicted_words.length : ℤ)
  let insertions : ℤ := (predicted_words.length : ℤ) - (true_words.length : ℤ)
  let wer : ℚ :=
    if 0 < true_words.length then
      ((substitutions + deletions + insertions : ℤ) : ℚ) / (true_words.length : ℚ)
    else 0
  let true_chars : List Char := (String.join true_words).data
  let predicted_chars : List Char := (String.join predicted_words).data
  let cer : ℚ :=
    if 0 < true_chars.length then
      ((countNe true_chars predicted_chars : ℤ) : ℚ) / (true_chars.length : ℚ)
    else 0
  let true_positives : ℤ := countEq true_words predicted_words
  let false_positives : ℤ := (predicted_words.length : ℤ) - true_positives
  let false_negatives : ℤ := (true_words.length : ℤ) - true_positives
  let precision : ℚ :=
    if 0 < true_positives + false_positives then
      (true_positives : ℚ) / ((true_positives + false_positives : ℤ) : ℚ)
    else 0
  let «recall» : ℚ :=
    if 0 < true_positives + false_negatives then
      (true_positives : ℚ) / ((true_positives + false_negatives : ℤ) : ℚ)
    else 0
  let f1_score : ℚ :=
    if 0 < precision + «recall» then 2 * (precision * «recall») / (precision + «recall»)
    else 0
  ⟨wer, cer, precision, «recall», f1_score⟩

/-! ### Fitness scorer: `calculate_fitness` in `performance_metric.py` -/

/-- The function `calculate_fitness(accuracy, wer, cer, hcs, latency)` from
`performance_metric.py` (lines 109–114): unit weights, `max_latency = 1000`,
`latency_normalized = latency / max_latency`, and the five-term sum. -/
def calculate_fitness (accuracy wer cer hcs latency : ℚ) : ℚ :=
  let w1 : ℚ := 1
  let w2 : ℚ := 1
  let w3 : ℚ := 1
  let w4 : ℚ := 1
  let w5 : ℚ := 1
  let max_latency : ℚ := 1000
  let latency_normalized := latency / max_latency
  (w1 * accuracy) + (w2 * (1 - wer)) + (w3 * (1 - latency_normalized)) +
    (w4 * hcs) + (w5 * (1 - cer))

/-! ### Unfolding lemmas for the fields of `calculate_metrics` -/

/-- The `wer` field of `calculate_metrics`, spelled out. -/
theorem calculate_metrics_wer (t p : String) :
    (calculate_metrics t p).wer =
      if 0 < (pySplit t).length then
        (((countNe (pySplit t) (pySplit p) : ℤ) +
            ((pySplit t).length - (pySplit p).length : ℤ) +
            ((pySplit p).length - (pySplit t).length : ℤ) : ℤ) : ℚ) /
          ((pySplit t).length : ℚ)
      else 0 := rfl

/-- The `cer` field of `calculate_metrics`, spelled out. -/
theorem calculate_metrics_cer (t p : String) :
    (calculate_metrics t p).cer =
      if 0 < (String.join (pySplit t)).data.length then
        ((countNe (String.join (pySplit t)).data (String.join (pySplit p)).data : ℤ) : ℚ) /
          ((String.join (pySplit t)).data.length : ℚ)
      else 0 := rfl

/-- The `precision` field of `calculate_metrics`, spelled out. -/
theorem calculate_metrics_precision (t p : String) :
    (calculate_metrics t p).precision =
      (if 0 < ((countEq (pySplit t) (pySplit p) : ℤ) +
          ((pySplit p).length - countEq (pySplit t) (pySplit p) : ℤ)) then
        ((countEq (pySplit t) (pySplit p) : ℤ) : ℚ) /
          (((countEq (pySplit t) (pySplit p) : ℤ) +
            ((pySplit p).length - countEq (pySplit t) (pySplit p) : ℤ) : ℤ) : ℚ)
      else 0) := rfl

/-- The `recall` field of `calculate_metrics`, spelled out. -/
theorem calculate_metrics_recall (t p : String) :
    (calculate_metrics t p).«recall» =
      (if 0 < ((countEq (pySplit t) (pySplit p) : ℤ) +
          ((pySplit t).length - countEq (pySplit t) (pySplit p) : ℤ)) then
        ((countEq (pySplit t) (pySplit p) : ℤ) : ℚ) /
          (((countEq (pySplit t) (pySplit p) : ℤ) +
            ((pySplit t).length - countEq (pySplit t) (pySplit p) : ℤ) : ℤ) : ℚ)
      else 0) := rfl

/-- The `f1_score` field of `calculate_metrics`, spelled out. -/
theorem calculate_metrics_f1 (t p : String) :
    (calculate_metrics t p).f1_score =
      if 0 < (calculate_metrics t p).precision + (calculate_metrics t p).«recall» then
        2 * ((calculate_metrics t p).precision * (calculate_metrics t p).«recall») /
          ((calculate_metrics t p).precision + (calculate_metrics t p).«recall»)
      else 0 := rfl

example : pySplit "a b" = ["a", "b"] := by decide
example : pySplit "  a  b c " = ["a", "b", "c"] := by decide

example : (calculate_metrics "a b" "a b c d").wer = 0 := by
  have h1 : pySplit "a b" = ["a", "b"] := by decide
  have h2 : pySplit "a b c d" = ["a", "b", "c", "d"] := by decide
  have h3 : countNe ["a", "b"] ["a", "b", "c", "d"] = 0 := by decide
  rw [calculate_metrics_wer, h1, h2, h3]
  norm_num

example : calculate_fitness 1 0 0 1 500 = 9 / 2 := by
  unfold calculate_fitness
  norm_num

/-! ### Image preprocessing error channel: `preprocess_image` and
`extract_text` in `ocr.py`

The cv2 and pytesseract collaborators are external libraries, so they are
taken as opaque function parameters.  A Python call either returns a value
normally or raises an exception; that channel is made explicit by
`PyOutcome`.  `cv2.imread` yields `None` when the file cannot be decoded,
so its result is modelled as an `Option`. -/

/-- An abstract decoded grayscale page image (the cv2 array is opaque to
this development; only the success/failure channel matters here). -/
structure GrayImage where
  rows : List (List Nat)
deriving DecidableEq

/-- The outcome of a Python call: a normal return value, or a raised
exception carrying the exception's name. -/
inductive PyOutcome (α : Type) where
  | ret : α → PyOutcome α
  | exc : String → PyOutcome α
deriving DecidableEq

/-- Whether the call raised an exception. -/
def PyOutcome.isExc {α : Type} : PyOutcome α → Bool
  | PyOutcome.ret _ => false
  | PyOutcome.exc _ => true

/-- The function `preprocess_image` from `ocr.py` (lines 12–29): when `cv2.imread`
yields `None` the function prints a warning and returns `None` (a normal
return, not a raise); otherwise it returns the thresholded, blurred,
contrast-adjusted image. -/
def preprocess_image (convertScaleAbs gaussianBlur adaptiveThreshold : GrayImage → GrayImage)
    (imread_result : Option GrayImage) : PyOutcome (Option GrayImage) :=
  match imread_result with
  | none => PyOutcome.ret none
  | some image =>
      PyOutcome.ret (some (adaptiveThreshold (gaussianBlur (convertScaleAbs image))))

/-- The function `extract_text` from `ocr.py` (lines 32–41): preprocess, return `None`
when preprocessing returned `None`, otherwise run the OCR engine and
return the stripped text. -/
def extract_text (convertScaleAbs gaussianBlur adaptiveThreshold : GrayImage → GrayImage)
    (image_to_string : GrayImage → String) (imread_result : Option GrayImage) :
    PyOutcome (Option String) :=
  match preprocess_image convertScaleAbs gaussianBlur adaptiveThreshold imread_result with
  | PyOutcome.exc e => PyOutcome.exc e
  | PyOutcome.ret none => PyOutcome.ret none
  | PyOutcome.ret (some processed_image) =>
      PyOutcome.ret (some (image_to_string processed_image).trim)

/-! ### Text refiner: `pso_text_correction` in `ocr.py`

The only nondeterminism is `random.random() < 0.3`; it is modelled by an
explicit stream of pre-drawn Booleans, where entry `k` is `true` exactly
when the `k`-th executed comparison `random.random() < 0.3` succeeds.
Python's `list(text)` is a list of one-character strings and the
`corrections` dict maps strings to strings, so particles are modelled as
`List String`. -/

/-- A stream of pre-drawn random Boolean draws. -/
abbrev RandStream : Type := Nat → Bool

/-- The stream after consuming one draw. -/
def tailDraws (r : RandStream) : RandStream := fun i => r (i + 1)

/-- The `corrections` dict of `pso_text_correction` (`ocr.py` lines 46–50),
as the finite map it denotes: `corrections_lookup s = some v` exactly when
`s` is a key of the dict with value `v`. -/
def corrections_lookup (s : String) : Option String :=
  if s = "0" then some "O"
  else if s = "O" then some "0"
  else if s = "1" then some "l"
  else if s = "l" then some "1"
  else if s = "5" then some "S"
  else if s = "S" then some "5"
  else if s = "B" then some "8"
  else if s = "8" then some "B"
  else if s = "rn" then some "m"
  else if s = "vv" then some "w"
  else if s = "ll" then some "l"
  else none

/-- One execution of the loop body `if particle[i] in corrections and
random.random() < 0.3: particle[i] = corrections[particle[i]]`.  Python's
`and` short-circuits, so a random draw is consumed only when the element is
a key of the table.  Returns the updated element and the remaining
stream. -/
def mutElem (s : String) (r : RandStream) : String × RandStream :=
  match corrections_lookup s with
  | none => (s, r)
  | some v => (if r 0 then v else s, tailDraws r)

/-- The inner `for i in range(len(particle))` pass over one particle. -/
def mutParticle : List String → RandStream → List String × RandStream
  | [], r => ([], r)
  | s :: rest, r =>
    let er := mutElem s r
    let rr := mutParticle rest er.2
    (er.1 :: rr.1, rr.2)

/-- The `for particle in particles` pass: one PSO iteration. -/
def mutPop : List (List String) → RandStream → List (List String) × RandStream
  | [], r => ([], r)
  | p :: ps, r =>
    let pr := mutParticle p r
    let rr := mutPop ps pr.2
    (pr.1 :: rr.1, rr.2)

/-- The outer `for _ in range(max_iterations)` loop. -/
def runRounds : Nat → List (List String) → RandStream → List (List String) × RandStream
  | 0, pop, r => (pop, r)
  | n + 1, pop, r =>
    let pr := mutPop pop r
    runRounds n pr.1 pr.2

/-- The selection key `lambda x: x.count(" ") + x.count(".")`. -/
def readability (x : List String) : Nat := x.count " " + x.count "."

/-- Python `max(xs, key=key)` on the nonempty list `best :: xs`: a fold
keeping the current best and replacing it only on a strictly larger key, so
the first maximal element wins ties. -/
def pyMaxBy {α : Type} (key : α → Nat) : α → List α → α
  | best, [] => best
  | best, x :: xs => pyMaxBy key (if key best < key x then x else best) xs

/-- Python `list(text)`: the characters of `text` as one-character
strings. -/
def listOfText (text : String) : List String := text.data.map String.singleton

/-- The function `pso_text_correction(text, max_iterations=10)` from `ocr.py`
(lines 44–64): ten particles initialized to `list(text)`, `max_iterations`
mutation rounds threading the random stream in program order (rounds outer,
particles inner, positions innermost), then `"".join` of
`max(particles, key=...)`.  The population always has ten particles, so the
empty case of the final `match` is unreachable. -/
def pso_text_correction (text : String) (r : RandStream) (max_iterations : Nat := 10) :
    String :=
  let particles := List.replicate 10 (listOfText text)
  let final := (runRounds max_iterations particles r).1
  let best_text := match final with
    | [] => []
    | p :: ps => pyMaxBy readability p ps
  String.join best_text

/-- Modelled from the spec (§4.3): the selection rule "select the single
candidate maximizing a readability proxy ... ties broken by
selection-order stability (first maximal candidate encountered)" — the
first list element whose key attains the maximum key value. -/
def firstMaxBy {α : Type} (key : α → Nat) (l : List α) : Option α :=
  l.find? fun x => key x = (l.map key).foldr max 0

/-- Modelled from the spec (§4.3 Text Refiner): a population of 10
candidates initialized identically to the raw text, a fixed number of
rounds of per-character stochastic substitution through the confusion
table (shared with the code model, which the spec describes with the same
words), then the first candidate maximizing spaces-plus-periods, joined
into one string. -/
def refine_spec (text : String) (r : RandStream) (rounds : Nat := 10) : String :=
  let pop := List.replicate 10 (listOfText text)
  let final := (runRounds rounds pop r).1
  match firstMaxBy readability final with
  | some best => String.join best
  | none => ""

/-- The single-character confusable pairs of the table: key and value of
every entry whose key is one character long. -/
def charPairs : List (Char × Char) :=
  [('0', 'O'), ('O', '0'), ('1', 'l'), ('l', '1'),
   ('5', 'S'), ('S', '5'), ('B', '8'), ('8', 'B')]

/-- The single-character keys of the confusion table. -/
def confusableChars : List Char := ['0', 'O', '1', 'l', '5', 'S', 'B', '8']

/-! ### Helper lemmas about strings and the confusion table -/

/-- The character list underlying a one-character string. -/
theorem singleton_data (c : Char) : (String.singleton c).data = [c] := by
  rw [String.singleton_eq]

/-- A string's length is the length of its character list. -/
theorem string_length_data (s : String) : s.length = s.data.length := by
  cases s
  rfl

/-- The map `String.singleton` is injective. -/
theorem singleton_inj {c d : Char} (h : String.singleton c = String.singleton d) :
    c = d := by
  have hd := congrArg String.data h
  rw [singleton_data, singleton_data] at hd
  exact List.head_eq_of_cons_eq hd

/-- Appending strings concatenates their character lists. -/
theorem data_append (s t : String) : (s ++ t).data = s.data ++ t.data := by
  cases s
  cases t
  rfl

/-- Joining one-character strings recovers the character list. -/
theorem join_map_singleton (cs : List Char) :
    (String.join (cs.map String.singleton)).data = cs := by
  have key : ∀ (l : List Char) (acc : String),
      ((l.map String.singleton).foldl (fun r s => r ++ s) acc).data = acc.data ++ l := by
    intro l
    induction l with
    | nil => intro acc; simp
    | cons c cs ih =>
      intro acc
      simp only [List.map_cons, List.foldl_cons]
      rw [ih, data_append, singleton_data]
      simp
  show ((cs.map String.singleton).foldl (fun r s => r ++ s) "").data = cs
  rw [key]
  rfl

/-- A one-character string differs from any string whose characters are
`[d]` when `c ≠ d`. -/
theorem singleton_ne_of_char_ne (c d : Char) (t : String) (ht : t.data = [d])
    (h : c ≠ d) : String.singleton c ≠ t := by
  intro he
  apply h
  have hd := congrArg String.data he
  rw [singleton_data, ht] at hd
  exact List.head_eq_of_cons_eq hd

/-- A one-character string differs from any string of other length. -/
theorem singleton_ne_of_length (c : Char) (t : String) (ht : t.data.length ≠ 1) :
    String.singleton c ≠ t := by
  intro he
  apply ht
  rw [← he, singleton_data]
  rfl

/-- On any string that is none of the eleven keys, the confusion table
lookup is empty. -/
theorem corrections_lookup_eq_none (s : String)
    (k0 : s ≠ "0") (k1 : s ≠ "O") (k2 : s ≠ "1") (k3 : s ≠ "l") (k4 : s ≠ "5")
    (k5 : s ≠ "S") (k6 : s ≠ "B") (k7 : s ≠ "8") (k8 : s ≠ "rn") (k9 : s ≠ "vv")
    (k10 : s ≠ "ll") : corrections_lookup s = none := by
  unfold corrections_lookup
  rw [if_neg k0, if_neg k1, if_neg k2, if_neg k3, if_neg k4, if_neg k5, if_neg k6,
    if_neg k7, if_neg k8, if_neg k9, if_neg k10]

/-- A one-character string that is a key of the confusion table maps to a
one-character value whose character is the key's confusable partner: the
three multi-character entries can never be selected by a one-character
element. -/
theorem corrections_lookup_singleton_some (c : Char) (v : String)
    (h : corrections_lookup (String.singleton c) = some v) :
    ∃ d, v = String.singleton d ∧ (c, d) ∈ charPairs := by
  by_cases h0 : c = '0'
  · subst h0
    rw [show corrections_lookup (String.singleton '0') = some "O" from by decide] at h
    exact ⟨'O', by rw [← Option.some.inj h]; decide, by decide⟩
  by_cases h1 : c = 'O'
  · subst h1
    rw [show corrections_lookup (String.singleton 'O') = some "0" from by decide] at h
    exact ⟨'0', by rw [← Option.some.inj h]; decide, by decide⟩
  by_cases h2 : c = '1'
  · subst h2
    rw [show corrections_lookup (String.singleton '1') = some "l" from by decide] at h
    exact ⟨'l', by rw [← Option.some.inj h]; decide, by decide⟩
  by_cases h3 : c = 'l'
  · subst h3
    rw [show corrections_lookup (String.singleton 'l') = some "1" from by decide] at h
    exact ⟨'1', by rw [← Option.some.inj h]; decide, by decide⟩
  by_cases h4 : c = '5'
  · subst h4
    rw [show corrections_lookup (String.singleton '5') = some "S" from by decide] at h
    exact ⟨'S', by rw [← Option.some.inj h]; decide, by decide⟩
  by_cases h5 : c = 'S'
  · subst h5
    rw [show corrections_lookup (String.singleton 'S') = some "5" from by decide] at h
    exact ⟨'5', by rw [← Option.some.inj h]; decide, by decide⟩
  by_cases h6 : c = 'B'
  · subst h6
    rw [show corrections_lookup (String.singleton 'B') = some "8" from by decide] at h
    exact ⟨'8', by rw [← Option.some.inj h]; decide, by decide⟩
  by_cases h7 : c = '8'
  · subst h7
    rw [show corrections_lookup (String.singleton '8') = some "B" from by decide] at h
    exact ⟨'B', by rw [← Option.some.inj h]; decide, by decide⟩
  rw [corrections_lookup_eq_none _
    (singleton_ne_of_char_ne c '0' "0" rfl h0)
    (singleton_ne_of_char_ne c 'O' "O" rfl h1)
    (singleton_ne_of_char_ne c '1' "1" rfl h2)
    (singleton_ne_of_char_ne c 'l' "l" rfl h3)
    (singleton_ne_of_char_ne c '5' "5" rfl h4)
    (singleton_ne_of_char_ne c 'S' "S" rfl h5)
    (singleton_ne_of_char_ne c 'B' "B" rfl h6)
    (singleton_ne_of_char_ne c '8' "8" rfl h7)
    (singleton_ne_of_length c "rn" (by decide))
    (singleton_ne_of_length c "vv" (by decide))
    (singleton_ne_of_length c "ll" (by decide))] at h
  exact Option.noConfusion h

/-- The confusable pairs are mutually inverse: following the table twice
returns to the starting character. -/
theorem charPairs_involutive : ∀ p ∈ charPairs, ∀ q ∈ charPairs,
    p.2 = q.1 → q.2 = p.1 := by decide

/-- Every confusable pair starts at a single-character key of the table. -/
theorem charPairs_fst_mem : ∀ p ∈ charPairs, p.1 ∈ confusableChars := by decide

/-- A value of the confusion table is never a space or a period. -/
theorem corrections_lookup_value_not_mark (s v : String)
    (h : corrections_lookup s = some v) : v ≠ " " ∧ v ≠ "." := by
  by_cases h0 : s = "0"
  · subst h0
    rw [show corrections_lookup "0" = some "O" from by decide] at h
    exact ⟨by rw [← Option.some.inj h]; decide, by rw [← Option.some.inj h]; decide⟩
  by_cases h1 : s = "O"
  · subst h1
    rw [show corrections_lookup "O" = some "0" from by decide] at h
    exact ⟨by rw [← Option.some.inj h]; decide, by rw [← Option.some.inj h]; decide⟩
  by_cases h2 : s = "1"
  · subst h2
    rw [show corrections_lookup "1" = some "l" from by decide] at h
    exact ⟨by rw [← Option.some.inj h]; decide, by rw [← Option.some.inj h]; decide⟩
  by_cases h3 : s = "l"
  · subst h3
    rw [show corrections_lookup "l" = some "1" from by decide] at h
    exact ⟨by rw [← Option.some.inj h]; decide, by rw [← Option.some.inj h]; decide⟩
  by_cases h4 : s = "5"
  · subst h4
    rw [show corrections_lookup "5" = some "S" from by decide] at h
    exact ⟨by rw [← Option.some.inj h]; decide, by rw [← Option.some.inj h]; decide⟩
  by_cases h5 : s = "S"
  · subst h5
    rw [show corrections_lookup "S" = some "5" from by decide] at h
    exact ⟨by rw [← Option.some.inj h]; decide, by rw [← Option.some.inj h]; decide⟩
  by_cases h6 : s = "B"
  · subst h6
    rw [show corrections_lookup "B" = some "8" from by decide] at h
    exact ⟨by rw [← Option.some.inj h]; decide, by rw [← Option.some.inj h]; decide⟩
  by_cases h7 : s = "8"
  · subst h7
    rw [show corrections_lookup "8" = some "B" from by decide] at h
    exact ⟨by rw [← Option.some.inj h]; decide, by rw [← Option.some.inj h]; decide⟩
  by_cases h8 : s = "rn"
  · subst h8
    rw [show corrections_lookup "rn" = some "m" from by decide] at h
    exact ⟨by rw [← Option.some.inj h]; decide, by rw [← Option.some.inj h]; decide⟩
  by_cases h9 : s = "vv"
  · subst h9
    rw [show corrections_lookup "vv" = some "w" from by decide] at h
    exact ⟨by rw [← Option.some.inj h]; decide, by rw [← Option.some.inj h]; decide⟩
  by_cases h10 : s = "ll"
  · subst h10
    rw [show corrections_lookup "ll" = some "l" from by decide] at h
    exact ⟨by rw [← Option.some.inj h]; decide, by rw [← Option.some.inj h]; decide⟩
  rw [corrections_lookup_eq_none s h0 h1 h2 h3 h4 h5 h6 h7 h8 h9 h10] at h
  exact Option.noConfusion h

/-- A key of the confusion table is never a space or a period. -/
theorem corrections_lookup_key_not_mark (s v : String)
    (h : corrections_lookup s = some v) : s ≠ " " ∧ s ≠ "." := by
  constructor <;> intro he <;> subst he
  · rw [show corrections_lookup " " = none from by decide] at h
    exact Option.noConfusion h
  · rw [show corrections_lookup "." = none from by decide] at h
    exact Option.noConfusion h

/-! ### Invariants of the refiner's mutation loop -/

/-- A population slot against the character originally placed there:
either still that character's one-character string, or swapped to its
single-character confusable partner. -/
def SlotRel (o : Char) (s : String) : Prop :=
  s = String.singleton o ∨ ∃ d, s = String.singleton d ∧ (o, d) ∈ charPairs

/-- A population slot preserves whether it is a space and whether it is a
period, relative to the slot's initial content. -/
def MarkRel (o s : String) : Prop := (s = " " ↔ o = " ") ∧ (s = "." ↔ o = ".")

/-- The relation `SlotRel` is preserved by one mutation step. -/
theorem SlotRel_mutElem (o : Char) (s : String) (r : RandStream)
    (h : SlotRel o s) : SlotRel o (mutElem s r).1 := by
  unfold mutElem
  cases hl : corrections_lookup s with
  | none => exact h
  | some v =>
    show SlotRel o (if r 0 then v else s)
    by_cases hr : r 0
    · rw [if_pos hr]
      rcases h with h | ⟨d, hd, hmem⟩
      · subst h
        obtain ⟨d, rfl, hmem⟩ := corrections_lookup_singleton_some o v hl
        exact Or.inr ⟨d, rfl, hmem⟩
      · subst hd
        obtain ⟨e, rfl, he⟩ := corrections_lookup_singleton_some d v hl
        have heo : e = o := charPairs_involutive (o, d) hmem (d, e) he rfl
        subst heo
        exact Or.inl rfl
    · rw [if_neg hr]
      exact h

/-- The relation `MarkRel` is preserved by one mutation step: keys and values of the
table are never spaces or periods. -/
theorem MarkRel_mutElem (o s : String) (r : RandStream)
    (h : MarkRel o s) : MarkRel o (mutElem s r).1 := by
  unfold mutElem
  cases hl : corrections_lookup s with
  | none => exact h
  | some v =>
    show MarkRel o (if r 0 then v else s)
    by_cases hr : r 0
    · rw [if_pos hr]
      obtain ⟨hv1, hv2⟩ := corrections_lookup_value_not_mark s v hl
      obtain ⟨hs1, hs2⟩ := corrections_lookup_key_not_mark s v hl
      exact ⟨⟨fun hv => absurd hv hv1, fun ho => absurd (h.1.mpr ho) hs1⟩,
             ⟨fun hv => absurd hv hv2, fun ho => absurd (h.2.mpr ho) hs2⟩⟩
    · rw [if_neg hr]
      exact h

/-- A slotwise relation preserved by `mutElem` is preserved by a particle
pass. -/
theorem forall₂_mutParticle {γ : Type} {R : γ → String → Prop}
    (hR : ∀ o s r, R o s → R o (mutElem s r).1) :
    ∀ (os : List γ) (ps : List String) (r : RandStream),
      List.Forall₂ R os ps → List.Forall₂ R os (mutParticle ps r).1 := by
  intro os ps
  induction ps generalizing os with
  | nil =>
    intro r h
    cases h
    exact List.Forall₂.nil
  | cons s rest ih =>
    intro r h
    cases h with
    | cons h1 h2 => exact List.Forall₂.cons (hR _ _ _ h1) (ih _ _ h2)

/-- A slotwise relation satisfied by every particle is still satisfied by
every particle after one population pass. -/
theorem forall₂_mutPop {γ : Type} {R : γ → String → Prop}
    (hR : ∀ o s r, R o s → R o (mutElem s r).1) (os : List γ) :
    ∀ (pop : List (List String)) (r : RandStream),
      (∀ p ∈ pop, List.Forall₂ R os p) →
      ∀ q ∈ (mutPop pop r).1, List.Forall₂ R os q := by
  intro pop
  induction pop with
  | nil =>
    intro r h q hq
    rw [show (mutPop [] r).1 = [] from rfl] at hq
    exact absurd hq (List.not_mem_nil q)
  | cons p ps ih =>
    intro r h q hq
    rw [show (mutPop (p :: ps) r).1 =
        (mutParticle p r).1 :: (mutPop ps (mutParticle p r).2).1 from rfl] at hq
    rcases List.mem_cons.mp hq with rfl | hq'
    · exact forall₂_mutParticle hR os p r (h p (List.mem_cons_self p ps))
    · exact ih _ (fun x hx => h x (List.mem_cons_of_mem p hx)) q hq'

/-- A slotwise relation satisfied by every particle is still satisfied by
every particle after any number of rounds. -/
theorem forall₂_runRounds {γ : Type} {R : γ → String → Prop}
    (hR : ∀ o s r, R o s → R o (mutElem s r).1) (os : List γ) :
    ∀ (n : Nat) (pop : List (List String)) (r : RandStream),
      (∀ p ∈ pop, List.Forall₂ R os p) →
      ∀ q ∈ (runRounds n pop r).1, List.Forall₂ R os q := by
  intro n
  induction n with
  | zero => intro pop r h q hq; exact h q hq
  | succ n ih =>
    intro pop r h q hq
    rw [show runRounds (n + 1) pop r =
        runRounds n (mutPop pop r).1 (mutPop pop r).2 from rfl] at hq
    exact ih _ _ (forall₂_mutPop hR os pop r h) q hq

/-- Mutation keeps the particle count. -/
theorem mutPop_length : ∀ (pop : List (List String)) (r : RandStream),
    (mutPop pop r).1.length = pop.length
  | [], _ => rfl
  | p :: ps, r => by
    show ((mutParticle p r).1 :: (mutPop ps (mutParticle p r).2).1).length =
      (p :: ps).length
    rw [List.length_cons, List.length_cons, mutPop_length ps _]

/-- Rounds keep the particle count. -/
theorem runRounds_length : ∀ (n : Nat) (pop : List (List String)) (r : RandStream),
    (runRounds n pop r).1.length = pop.length
  | 0, _, _ => rfl
  | n + 1, pop, r => by
    show (runRounds n (mutPop pop r).1 (mutPop pop r).2).1.length = pop.length
    rw [runRounds_length n _ _, mutPop_length]

/-- Mapping each element to its one-character string realizes a slotwise
relation that holds on singletons. -/
theorem forall₂_refl_map {R : Char → String → Prop}
    (h : ∀ c, R c (String.singleton c)) :
    ∀ l : List Char, List.Forall₂ R l (l.map String.singleton)
  | [] => List.Forall₂.nil
  | c :: cs => List.Forall₂.cons (h c) (forall₂_refl_map h cs)

/-- Slots related by an "is this mark" equivalence have equal counts of
that mark. -/
theorem count_eq_of_forall₂_iff (a : String) :
    ∀ {os ps : List String}, List.Forall₂ (fun o s => s = a ↔ o = a) os ps →
      ps.count a = os.count a := by
  intro os ps h
  induction h with
  | nil => rfl
  | @cons o s os' ps' h1 h2 ih =>
    rw [List.count_cons, List.count_cons, ih]
    congr 1
    have e : (s == a) = (o == a) := by
      by_cases hs : s = a
      · rw [hs, h1.mp hs]
      · have ho : o ≠ a := fun hh => hs (h1.mpr hh)
        rw [beq_eq_false_iff_ne.mpr hs, beq_eq_false_iff_ne.mpr ho]
    rw [e]

/-- Particles slotwise `MarkRel`-related to the initial particle have its
readability score. -/
theorem readability_eq_of_markRel {os ps : List String}
    (h : List.Forall₂ MarkRel os ps) : readability ps = readability os := by
  unfold readability
  rw [count_eq_of_forall₂_iff " " (h.imp fun o s hos => hos.1),
    count_eq_of_forall₂_iff "." (h.imp fun o s hos => hos.2)]

/-- Python `max` returns an element of the list it is given. -/
theorem pyMaxBy_mem {α : Type} (key : α → Nat) (b : α) (l : List α) :
    pyMaxBy key b l ∈ b :: l := by
  induction l generalizing b with
  | nil => exact List.mem_cons_self b []
  | cons x xs ih =>
    show pyMaxBy key (if key b < key x then x else b) xs ∈ b :: x :: xs
    have h := ih (if key b < key x then x else b)
    rcases List.mem_cons.mp h with h1 | h1
    · rw [h1]
      by_cases hk : key b < key x
      · rw [if_pos hk]
        exact List.mem_cons_of_mem b (List.mem_cons_self x xs)
      · rw [if_neg hk]
        exact List.mem_cons_self b (x :: xs)
    · exact List.mem_cons_of_mem b (List.mem_cons_of_mem x h1)

/-- When every candidate has the same key, Python `max` returns the first
candidate. -/
theorem pyMaxBy_const {α : Type} (key : α → Nat) (k : Nat) :
    ∀ (b : α) (l : List α), key b = k → (∀ x ∈ l, key x = k) →
      pyMaxBy key b l = b := by
  intro b l
  induction l generalizing b with
  | nil => intro _ _; rfl
  | cons x xs ih =>
    intro hb hl
    show pyMaxBy key (if key b < key x then x else b) xs = b
    have hx : key x = k := hl x (List.mem_cons_self x xs)
    have hnlt : ¬ key b < key x := by
      rw [hb, hx]
      exact lt_irrefl k
    rw [if_neg hnlt]
    exact ih b hb fun y hy => hl y (List.mem_cons_of_mem x hy)

/-- The maximum key over a list, 0 on the empty list. -/
def maxKey {α : Type} (key : α → Nat) (l : List α) : Nat := (l.map key).foldr max 0

/-- The selection `firstMaxBy` unfolded through `maxKey`. -/
theorem firstMaxBy_eq_find? {α : Type} (key : α → Nat) (l : List α) :
    firstMaxBy key l = l.find? fun x => decide (key x = maxKey key l) := rfl

/-- The value of `maxKey` on a cons. -/
theorem maxKey_cons {α : Type} (key : α → Nat) (x : α) (l : List α) :
    maxKey key (x :: l) = max (key x) (maxKey key l) := rfl

/-- Every key is bounded by the maximum key. -/
theorem le_maxKey {α : Type} (key : α → Nat) :
    ∀ (l : List α), ∀ x ∈ l, key x ≤ maxKey key l := by
  intro l
  induction l with
  | nil => intro x hx; exact absurd hx (List.not_mem_nil x)
  | cons y ys ih =>
    intro x hx
    rw [maxKey_cons]
    rcases List.mem_cons.mp hx with rfl | hx'
    · exact Nat.le_max_left _ _
    · exact le_trans (ih x hx') (Nat.le_max_right _ _)

/-- Python's fold-with-strict-improvement `max` agrees with the spec's
"first candidate attaining the maximum key" selection rule. -/
theorem pyMaxBy_eq_firstMaxBy {α : Type} (key : α → Nat) :
    ∀ (l : List α) (b : α), firstMaxBy key (b :: l) = some (pyMaxBy key b l) := by
  intro l
  induction l with
  | nil =>
    intro b
    rw [firstMaxBy_eq_find?]
    rw [show maxKey key [b] = key b from by rw [maxKey_cons]; exact Nat.max_zero _]
    rw [List.find?_cons_of_pos _ (by simp)]
    rfl
  | cons x xs ih =>
    intro b
    by_cases hk : key b < key x
    · have hxle : key x ≤ maxKey key (x :: xs) :=
        le_maxKey key (x :: xs) x (List.mem_cons_self x xs)
      have hblt : key b < maxKey key (x :: xs) := lt_of_lt_of_le hk hxle
      have hM : maxKey key (b :: x :: xs) = maxKey key (x :: xs) := by
        rw [maxKey_cons]
        exact Nat.max_eq_right (le_of_lt hblt)
      have hrhs : pyMaxBy key b (x :: xs) = pyMaxBy key x xs := by
        show pyMaxBy key (if key b < key x then x else b) xs = pyMaxBy key x xs
        rw [if_pos hk]
      rw [firstMaxBy_eq_find?, hM, hrhs,
        List.find?_cons_of_neg _ (by simp [ne_of_lt hblt]), ← firstMaxBy_eq_find?]
      exact ih x
    · have hxb : key x ≤ key b := Nat.le_of_not_lt hk
      have hble : key b ≤ maxKey key (b :: xs) :=
        le_maxKey key (b :: xs) b (List.mem_cons_self b xs)
      have hM : maxKey key (b :: x :: xs) = maxKey key (b :: xs) := by
        rw [maxKey_cons, maxKey_cons, maxKey_cons, ← Nat.max_assoc,
          Nat.max_eq_left hxb]
      have hrhs : pyMaxBy key b (x :: xs) = pyMaxBy key b xs := by
        show pyMaxBy key (if key b < key x then x else b) xs = pyMaxBy key b xs
        rw [if_neg hk]
      rw [firstMaxBy_eq_find?, hM, hrhs]
      have ihb := ih b
      rw [firstMaxBy_eq_find?] at ihb
      by_cases hbm : key b = maxKey key (b :: xs)
      · rw [List.find?_cons_of_pos _ (by simp [hbm])]
        rw [List.find?_cons_of_pos _ (by simp [hbm])] at ihb
        exact ihb
      · have hblt : key b < maxKey key (b :: xs) := lt_of_le_of_ne hble hbm
        have hxm : ¬ (key x = maxKey key (b :: xs)) :=
          ne_of_lt (lt_of_le_of_lt hxb hblt)
        rw [List.find?_cons_of_neg _ (by simp [hbm]),
          List.find?_cons_of_neg _ (by simp [hxm])]
        rw [List.find?_cons_of_neg _ (by simp [hbm])] at ihb
        exact ihb

/-- The final population of a ten-particle run is nonempty. -/
theorem final_pop_cons (text : String) (r : RandStream) (n : Nat) :
    ∃ p ps, (runRounds n (List.replicate 10 (listOfText text)) r).1 = p :: ps := by
  have h := runRounds_length n (List.replicate 10 (listOfText text)) r
  rw [List.length_replicate] at h
  cases hf : (runRounds n (List.replicate 10 (listOfText text)) r).1 with
  | nil => rw [hf] at h; simp at h
  | cons p ps => exact ⟨p, ps, rfl⟩

/-- The refiner's return value, through the shape of the final
population. -/
theorem pso_eq_join_pyMaxBy (text : String) (r : RandStream) (n : Nat)
    (p : List String) (ps : List (List String))
    (hf : (runRounds n (List.replicate 10 (listOfText text)) r).1 = p :: ps) :
    pso_text_correction text r n = String.join (pyMaxBy readability p ps) := by
  unfold pso_text_correction
  dsimp only
  rw [hf]

/-- A particle slotwise related to the original characters is a list of
one-character strings over characters that are unchanged or confusable
partners. -/
theorem slotRel_decompose : ∀ {os : List Char} {ps : List String},
    List.Forall₂ SlotRel os ps →
    ∃ cs : List Char, ps = cs.map String.singleton ∧
      List.Forall₂ (fun o c => c = o ∨ (o, c) ∈ charPairs) os cs := by
  intro os ps h
  induction h with
  | nil => exact ⟨[], rfl, List.Forall₂.nil⟩
  | @cons o s os' ps' h1 h2 ih =>
    obtain ⟨cs, rfl, hcs⟩ := ih
    rcases h1 with rfl | ⟨d, rfl, hd⟩
    · exact ⟨o :: cs, rfl, List.Forall₂.cons (Or.inl rfl) hcs⟩
    · exact ⟨d :: cs, rfl, List.Forall₂.cons (Or.inr hd) hcs⟩

/-- A sequence never differs from itself on the overlapping prefix. -/
theorem countNe_self {α : Type} [DecidableEq α] (xs : List α) : countNe xs xs = 0 := by
  induction xs with
  | nil => rfl
  | cons x xs ih => simpa [countNe, List.zip_cons_cons, List.filter_cons] using ih

/-- The equal-position count is bounded by the second sequence's length. -/
theorem countEq_le_right {α : Type} [DecidableEq α] (xs ys : List α) :
    countEq xs ys ≤ ys.length := by
  calc ((xs.zip ys).filter fun p => decide (p.1 = p.2)).length
      ≤ (xs.zip ys).length := List.length_filter_le _ _
    _ ≤ ys.length := by rw [List.length_zip]; exact Nat.min_le_right _ _

/-- The equal-position count is bounded by the first sequence's length. -/
theorem countEq_le_left {α : Type} [DecidableEq α] (xs ys : List α) :
    countEq xs ys ≤ xs.length := by
  calc ((xs.zip ys).filter fun p => decide (p.1 = p.2)).length
      ≤ (xs.zip ys).length := List.length_filter_le _ _
    _ ≤ xs.length := by rw [List.length_zip]; exact Nat.min_le_left _ _

/-- In the code's WER, the signed deletion and insertion terms cancel, so
the returned value is just substitutions over reference word count. -/
theorem wer_eq_substitutions_div (t p : String) :
    (calculate_metrics t p).wer =
      if 0 < (pySplit t).length then
        (countNe (pySplit t) (pySplit p) : ℚ) / ((pySplit t).length : ℚ)
      else 0 := by
  rw [calculate_metrics_wer]
  split_ifs with h
  · congr 1
    push_cast
    ring
  · rfl

/-- In the code's precision, the denominator `TP + FP` is the hypothesis
word count. -/
theorem precision_eq_div_length (t p : String) :
    (calculate_metrics t p).precision =
      if 0 < (pySplit p).length then
        (countEq (pySplit t) (pySplit p) : ℚ) / ((pySplit p).length : ℚ)
      else 0 := by
  rw [calculate_metrics_precision]
  have hd : ((countEq (pySplit t) (pySplit p) : ℤ) +
      ((pySplit p).length - countEq (pySplit t) (pySplit p) : ℤ)) =
      ((pySplit p).length : ℤ) := by ring
  rw [hd]
  split_ifs with h1 h2 h2
  · push_cast; ring
  · exact absurd (by exact_mod_cast h1) h2
  · exact absurd (by exact_mod_cast h2) h1
  · rfl

/-- In the code's recall, the denominator `TP + FN` is the reference word
count. -/
theorem recall_eq_div_length (t p : String) :
    (calculate_metrics t p).«recall» =
      if 0 < (pySplit t).length then
        (countEq (pySplit t) (pySplit p) : ℚ) / ((pySplit t).length : ℚ)
      else 0 := by
  rw [calculate_metrics_recall]
  have hd : ((countEq (pySplit t) (pySplit p) : ℤ) +
      ((pySplit t).length - countEq (pySplit t) (pySplit p) : ℤ)) =
      ((pySplit t).length : ℤ) := by ring
  rw [hd]
  split_ifs with h1 h2 h2
  · push_cast; ring
  · exact absurd (by exact_mod_cast h1) h2
  · exact absurd (by exact_mod_cast h2) h1
  · rfl

/-! ### Claim theorems: metrics engine, fitness scorer, error channel -/

/-- C1 (code evaluation at the failing input): for reference `"a b"` and
hypothesis `"a b c d"` the code returns WER = 0, not the claimed 1.0 — the
signed `deletions = len(ref) - len(hyp) = -2` and
`insertions = len(hyp) - len(ref) = 2` cancel instead of being clamped by
`max(0, ·)`. -/
theorem C1_wer_failing_input :
    (calculate_metrics "a b" "a b c d").wer = 0 ∧
    (calculate_metrics "a b" "a b c d").wer ≠ 1 := by
  have h1 : pySplit "a b" = ["a", "b"] := by decide
  have h2 : pySplit "a b c d" = ["a", "b", "c", "d"] := by decide
  have h3 : countNe ["a", "b"] ["a", "b", "c", "d"] = 0 := by decide
  have h : (calculate_metrics "a b" "a b c d").wer = 0 := by
    rw [calculate_metrics_wer, h1, h2, h3]
    norm_num
  exact ⟨h, by rw [h]; norm_num⟩

/-- C2 (code evaluation at the failing input): for reference `"ab"` and
hypothesis `"abcd"` the code returns CER = 0, not the claimed 1.0 — the
code's CER has no insertion or deletion term at all, only positional
substitutions over the overlapping character prefix. -/
theorem C2_cer_failing_input :
    (calculate_metrics "ab" "abcd").cer = 0 ∧
    (calculate_metrics "ab" "abcd").cer ≠ 1 := by
  have h1 : (String.join (pySplit "ab")).data = ['a', 'b'] := by decide
  have h2 : (String.join (pySplit "abcd")).data = ['a', 'b', 'c', 'd'] := by decide
  have h3 : countNe ['a', 'b'] ['a', 'b', 'c', 'd'] = 0 := by decide
  have h : (calculate_metrics "ab" "abcd").cer = 0 := by
    rw [calculate_metrics_cer, h1, h2, h3]
    norm_num
  exact ⟨h, by rw [h]; norm_num⟩

/-- C3 (counterexample): when the image cannot be decoded (`cv2.imread`
returned `None`), `preprocess_image` returns the sentinel `None` as a
normal Python return value; no exception of any kind — in particular no
`InputError` — is surfaced to the caller. -/
theorem C3_sentinel_counterexample :
    preprocess_image id id id none = PyOutcome.ret none ∧
    (preprocess_image id id id none).isExc = false :=
  ⟨rfl, rfl⟩

/-- C3 (amended): whenever the input image cannot be decoded, the code
returns the sentinel `None` to its caller (after printing a warning) and
`extract_text` propagates that `None`; neither function ever raises, for
any decode outcome and any behavior of the external cv2/pytesseract
collaborators. -/
theorem C3_returns_none_sentinel
    (convertScaleAbs gaussianBlur adaptiveThreshold : GrayImage → GrayImage)
    (image_to_string : GrayImage → String) :
    preprocess_image convertScaleAbs gaussianBlur adaptiveThreshold none =
      PyOutcome.ret none ∧
    extract_text convertScaleAbs gaussianBlur adaptiveThreshold image_to_string none =
      PyOutcome.ret none ∧
    ∀ imread_result : Option GrayImage,
      (preprocess_image convertScaleAbs gaussianBlur adaptiveThreshold
        imread_result).isExc = false ∧
      (extract_text convertScaleAbs gaussianBlur adaptiveThreshold image_to_string
        imread_result).isExc = false := by
  refine ⟨rfl, rfl, ?_⟩
  intro imread_result
  cases imread_result <;> exact ⟨rfl, rfl⟩

/-- C4: the fitness scorer is exactly the unit-weighted five-term sum
`accuracy + (1 - wer) + (1 - latency/1000) + hcs + (1 - cer)` on all
rational inputs (it is a total function: no validation, no exception), and
a latency above 1000 ms makes the latency term negative, strictly lowering
the fitness below the other four terms. -/
theorem C4_fitness_formula (accuracy wer cer hcs latency : ℚ) :
    calculate_fitness accuracy wer cer hcs latency =
      accuracy + (1 - wer) + (1 - latency / 1000) + hcs + (1 - cer) ∧
    (1000 < latency →
      calculate_fitness accuracy wer cer hcs latency <
        accuracy + (1 - wer) + hcs + (1 - cer)) := by
  constructor
  · unfold calculate_fitness
    ring
  · intro h
    unfold calculate_fitness
    linarith

/-- Witness for C4 at `accuracy = 1, wer = 0, cer = 0, hcs = 1,
latency = 2000`. -/
theorem C4_fitness_formula_witness :
    calculate_fitness 1 0 0 1 2000 = 1 + (1 - 0) + (1 - 2000 / 1000) + 1 + (1 - 0) ∧
    calculate_fitness 1 0 0 1 2000 < 1 + (1 - 0) + 1 + (1 - 0) :=
  ⟨(C4_fitness_formula 1 0 0 1 2000).1,
   (C4_fitness_formula 1 0 0 1 2000).2 (by norm_num)⟩

/-- C7: with the other four inputs fixed, a strictly larger accuracy gives
a strictly larger fitness, and a strictly larger latency gives a strictly
smaller fitness. -/
theorem C7_fitness_monotone (wer cer hcs : ℚ) :
    (∀ a a' latency : ℚ, a < a' →
      calculate_fitness a wer cer hcs latency <
        calculate_fitness a' wer cer hcs latency) ∧
    (∀ accuracy l l' : ℚ, l < l' →
      calculate_fitness accuracy wer cer hcs l' <
        calculate_fitness accuracy wer cer hcs l) := by
  constructor
  · intro a a' latency h
    unfold calculate_fitness
    linarith
  · intro accuracy l l' h
    unfold calculate_fitness
    have : l / 1000 < l' / 1000 := by linarith
    linarith

/-- Witness for C7 at concrete inputs. -/
theorem C7_fitness_monotone_witness :
    calculate_fitness 0 0 0 0 0 < calculate_fitness 1 0 0 0 0 ∧
    calculate_fitness 0 0 0 0 500 < calculate_fitness 0 0 0 0 0 :=
  ⟨(C7_fitness_monotone 0 0 0).1 0 1 0 (by norm_num),
   (C7_fitness_monotone 0 0 0).2 0 0 500 (by norm_num)⟩

/-- C6: the WER and CER returned by the code are non-negative; both are 0
when the two texts tokenize to identical word sequences; and a reference
that tokenizes to no words yields WER = 0 rather than an error. -/
theorem C6_wer_cer_nonneg_and_zero (t p : String) :
    0 ≤ (calculate_metrics t p).wer ∧ 0 ≤ (calculate_metrics t p).cer ∧
    (pySplit t = pySplit p →
      (calculate_metrics t p).wer = 0 ∧ (calculate_metrics t p).cer = 0) ∧
    (pySplit t = [] → (calculate_metrics t p).wer = 0) := by
  refine ⟨?_, ?_, fun h => ⟨?_, ?_⟩, fun h => ?_⟩
  · rw [wer_eq_substitutions_div]
    split_ifs with hl
    · exact div_nonneg (Nat.cast_nonneg _) (Nat.cast_nonneg _)
    · exact le_refl 0
  · rw [calculate_metrics_cer]
    split_ifs with hl
    · exact div_nonneg (by positivity) (Nat.cast_nonneg _)
    · exact le_refl 0
  · rw [wer_eq_substitutions_div, h]
    simp [countNe_self]
  · rw [calculate_metrics_cer, h]
    simp [countNe_self]
  · rw [wer_eq_substitutions_div, h]
    simp

/-- Witness for C6: token-identical texts at `"a b"`, and the empty
reference at `("", "x")`. -/
theorem C6_wer_cer_nonneg_and_zero_witness :
    (calculate_metrics "a b" "a b").wer = 0 ∧
    (calculate_metrics "a b" "a b").cer = 0 ∧
    (calculate_metrics "" "x").wer = 0 :=
  ⟨((C6_wer_cer_nonneg_and_zero "a b" "a b").2.2.1 rfl).1,
   ((C6_wer_cer_nonneg_and_zero "a b" "a b").2.2.1 rfl).2,
   (C6_wer_cer_nonneg_and_zero "" "x").2.2.2 (by decide)⟩

/-- C5: true positives are the equal-word positions of the overlapping
prefix, false positives and negatives are the hypothesis/reference word
counts minus TP, precision/recall/F1 use the coded formulas with default 0
on a non-positive denominator; precision and recall lie in [0,1] whenever
their denominators are positive, and F1 is 0 when precision and recall are
both 0. -/
theorem C5_precision_recall_f1 (t p : String) :
    (calculate_metrics t p).precision =
      (if 0 < ((countEq (pySplit t) (pySplit p) : ℤ) +
          ((pySplit p).length - countEq (pySplit t) (pySplit p) : ℤ)) then
        ((countEq (pySplit t) (pySplit p) : ℤ) : ℚ) /
          (((countEq (pySplit t) (pySplit p) : ℤ) +
            ((pySplit p).length - countEq (pySplit t) (pySplit p) : ℤ) : ℤ) : ℚ)
      else 0) ∧
    (calculate_metrics t p).«recall» =
      (if 0 < ((countEq (pySplit t) (pySplit p) : ℤ) +
          ((pySplit t).length - countEq (pySplit t) (pySplit p) : ℤ)) then
        ((countEq (pySplit t) (pySplit p) : ℤ) : ℚ) /
          (((countEq (pySplit t) (pySplit p) : ℤ) +
            ((pySplit t).length - countEq (pySplit t) (pySplit p) : ℤ) : ℤ) : ℚ)
      else 0) ∧
    ((calculate_metrics t p).f1_score =
      if 0 < (calculate_metrics t p).precision + (calculate_metrics t p).«recall» then
        2 * ((calculate_metrics t p).precision * (calculate_metrics t p).«recall») /
          ((calculate_metrics t p).precision + (calculate_metrics t p).«recall»)
      else 0) ∧
    (0 < ((countEq (pySplit t) (pySplit p) : ℤ) +
        ((pySplit p).length - countEq (pySplit t) (pySplit p) : ℤ)) →
      0 ≤ (calculate_metrics t p).precision ∧ (calculate_metrics t p).precision ≤ 1) ∧
    (0 < ((countEq (pySplit t) (pySplit p) : ℤ) +
        ((pySplit t).length - countEq (pySplit t) (pySplit p) : ℤ)) →
      0 ≤ (calculate_metrics t p).«recall» ∧ (calculate_metrics t p).«recall» ≤ 1) ∧
    ((calculate_metrics t p).precision = 0 ∧ (calculate_metrics t p).«recall» = 0 →
      (calculate_metrics t p).f1_score = 0) := by
  have hdp : ((countEq (pySplit t) (pySplit p) : ℤ) +
      ((pySplit p).length - countEq (pySplit t) (pySplit p) : ℤ)) =
      ((pySplit p).length : ℤ) := by ring
  have hdt : ((countEq (pySplit t) (pySplit p) : ℤ) +
      ((pySplit t).length - countEq (pySplit t) (pySplit p) : ℤ)) =
      ((pySplit t).length : ℤ) := by ring
  refine ⟨calculate_metrics_precision t p, calculate_metrics_recall t p,
    calculate_metrics_f1 t p, fun hpos => ?_, fun hpos => ?_, fun h0 => ?_⟩
  · rw [hdp] at hpos
    have hl : 0 < (pySplit p).length := by exact_mod_cast hpos
    rw [precision_eq_div_length, if_pos hl]
    refine ⟨by positivity, ?_⟩
    rw [div_le_one (by exact_mod_cast hl)]
    exact_mod_cast countEq_le_right (pySplit t) (pySplit p)
  · rw [hdt] at hpos
    have hl : 0 < (pySplit t).length := by exact_mod_cast hpos
    rw [recall_eq_div_length, if_pos hl]
    refine ⟨by positivity, ?_⟩
    rw [div_le_one (by exact_mod_cast hl)]
    exact_mod_cast countEq_le_left (pySplit t) (pySplit p)
  · rw [calculate_metrics_f1, h0.1, h0.2]
    norm_num

/-- Witness for C5 at reference `"a"` and hypothesis `"b"`: one word each,
no match, so precision = recall = 0 and F1 = 0. -/
theorem C5_precision_recall_f1_witness :
    (0 ≤ (calculate_metrics "a" "b").precision ∧
      (calculate_metrics "a" "b").precision ≤ 1) ∧
    (0 ≤ (calculate_metrics "a" "b").«recall» ∧
      (calculate_metrics "a" "b").«recall» ≤ 1) ∧
    (calculate_metrics "a" "b").f1_score = 0 := by
  have h := C5_precision_recall_f1 "a" "b"
  have h1 : pySplit "a" = ["a"] := by decide
  have h2 : pySplit "b" = ["b"] := by decide
  have hc : countEq ["a"] ["b"] = 0 := by decide
  have hdp : (0:ℤ) < ((countEq (pySplit "a") (pySplit "b") : ℤ) +
      ((pySplit "b").length - countEq (pySplit "a") (pySplit "b") : ℤ)) := by
    rw [h1, h2]; decide
  have hdt : (0:ℤ) < ((countEq (pySplit "a") (pySplit "b") : ℤ) +
      ((pySplit "a").length - countEq (pySplit "a") (pySplit "b") : ℤ)) := by
    rw [h1, h2]; decide
  have hp : (calculate_metrics "a" "b").precision = 0 := by
    rw [precision_eq_div_length, h1, h2, hc]
    norm_num
  have hr : (calculate_metrics "a" "b").«recall» = 0 := by
    rw [recall_eq_div_length, h1, h2, hc]
    norm_num
  exact ⟨h.2.2.2.1 hdp, h.2.2.2.2.1 hdt, h.2.2.2.2.2 ⟨hp, hr⟩⟩

/-- C8: the code's refiner performs exactly the algorithm the spec
describes: ten candidates initialized to the input's character list, ten
mutation rounds in which each candidate character that is a key of the
confusion table is replaced by its substitute when the corresponding
random draw succeeds, and finally the join of the first candidate
maximizing the count of spaces plus periods. -/
theorem C8_refiner_matches_spec (text : String) (r : RandStream) :
    pso_text_correction text r = refine_spec text r := by
  obtain ⟨p, ps, hf⟩ := final_pop_cons text r 10
  rw [pso_eq_join_pyMaxBy text r 10 p ps hf]
  unfold refine_spec
  dsimp only
  rw [hf, pyMaxBy_eq_firstMaxBy]

/-- C9: for every input and every draw stream, the refined text has
exactly the input's length and differs from the input only at positions
whose original character is one of the eight single-character confusables
`0 O 1 l 5 S B 8`; in particular the multi-character table entries are
never applied. -/
theorem C9_refiner_frame (text : String) (r : RandStream) :
    (pso_text_correction text r).length = text.length ∧
    ∀ i : Nat, ∀ hi : i < (pso_text_correction text r).data.length,
      ∀ hj : i < text.data.length,
      (pso_text_correction text r).data.get ⟨i, hi⟩ ≠ text.data.get ⟨i, hj⟩ →
      text.data.get ⟨i, hj⟩ ∈ confusableChars := by
  obtain ⟨p, ps, hf⟩ := final_pop_cons text r 10
  have hpso := pso_eq_join_pyMaxBy text r 10 p ps hf
  have hmem : pyMaxBy readability p ps ∈
      (runRounds 10 (List.replicate 10 (listOfText text)) r).1 := by
    rw [hf]
    exact pyMaxBy_mem readability p ps
  have hall := forall₂_runRounds SlotRel_mutElem text.data 10
    (List.replicate 10 (listOfText text)) r
    (fun q hq => by
      rw [List.eq_of_mem_replicate hq]
      exact forall₂_refl_map (fun c => Or.inl rfl) text.data)
  obtain ⟨cs, hcs, hrel⟩ := slotRel_decompose (hall _ hmem)
  have hdata : (pso_text_correction text r).data = cs := by
    rw [hpso, hcs, join_map_singleton]
  constructor
  · rw [string_length_data, string_length_data, hdata]
    exact hrel.length_eq.symm
  · intro i hi hj hne
    have hi' : i < cs.length := by rw [← hdata]; exact hi
    have hget : (pso_text_correction text r).data.get ⟨i, hi⟩ = cs.get ⟨i, hi'⟩ :=
      List.get_of_eq hdata ⟨i, hi⟩
    have hrel_i := (List.forall₂_iff_get.mp hrel).2 i hj hi'
    rcases hrel_i with heq | hpair
    · exact absurd (by rw [hget, heq]) hne
    · exact charPairs_fst_mem _ hpair

set_option maxRecDepth 40000 in
set_option maxHeartbeats 4000000 in
/-- Witness for C9: input `"0"` with a stream whose first draw succeeds;
the output's first character differs from the input's and the input's
first character is a confusable. -/
theorem C9_refiner_frame_witness :
    (pso_text_correction "0" (fun i => i == 0)).length = ("0" : String).length ∧
    ("0" : String).data.get ⟨0, by decide⟩ ∈ confusableChars :=
  ⟨(C9_refiner_frame "0" (fun i => i == 0)).1,
   (C9_refiner_frame "0" (fun i => i == 0)).2 0 (by decide) (by decide) (by decide)⟩

/-- C10: every candidate of the final population has the same readability
score as the input text, so the selection step always returns the first
particle: the refiner's result is the join of the mutated first
particle. -/
theorem C10_selection_first_particle (text : String) (r : RandStream) :
    (∀ q ∈ (runRounds 10 (List.replicate 10 (listOfText text)) r).1,
      readability q = readability (listOfText text)) ∧
    pso_text_correction text r =
      String.join ((runRounds 10 (List.replicate 10 (listOfText text)) r).1.headI) := by
  have hallmark := forall₂_runRounds MarkRel_mutElem (listOfText text) 10
    (List.replicate 10 (listOfText text)) r
    (fun q hq => by
      rw [List.eq_of_mem_replicate hq]
      exact List.forall₂_same.mpr fun x _ => ⟨Iff.rfl, Iff.rfl⟩)
  have hread : ∀ q ∈ (runRounds 10 (List.replicate 10 (listOfText text)) r).1,
      readability q = readability (listOfText text) :=
    fun q hq => readability_eq_of_markRel (hallmark q hq)
  refine ⟨hread, ?_⟩
  obtain ⟨p, ps, hf⟩ := final_pop_cons text r 10
  rw [pso_eq_join_pyMaxBy text r 10 p ps hf, hf]
  rw [show (p :: ps).headI = p from rfl]
  congr 1
  apply pyMaxBy_const readability (readability (listOfText text))
  · exact hread p (by rw [hf]; exact List.mem_cons_self p ps)
  · intro x hx
    exact hread x (by rw [hf]; exact List.mem_cons_of_mem p hx)

set_option maxRecDepth 40000 in
set_option maxHeartbeats 4000000 in
/-- Witness for C10 at input `"a"` and the all-false draw stream. -/
theorem C10_selection_first_particle_witness :
    readability
        ((runRounds 10 (List.replicate 10 (listOfText "a")) (fun _ => false)).1.headI) =
      readability (listOfText "a") ∧
    pso_text_correction "a" (fun _ => false) =
      String.join
        ((runRounds 10 (List.replicate 10 (listOfText "a")) (fun _ => false)).1.headI) :=
  ⟨(C10_selection_first_particle "a" (fun _ => false)).1 _ (by decide),
   (C10_selection_first_particle "a" (fun _ => false)).2⟩
